import Mathlib

/-!
Verification development for the magpie-talk application (src/app.js).

The JavaScript source is shallowly embedded: strings are lists of
characters, the regex-driven scanners are written out as the
deterministic greedy scans the regexes denote, timers and wall-clock
reads are explicit `Int` parameters, and the fallible browser storage
is modelled with `Except`.  Each definition cites the source lines it
embeds.
-/

/-! ## Character classes

The source's regexes operate on JavaScript strings; the character
classes used are all ASCII-explicit (`\w`, `[^a-zA-Z0-9]`, `\d`,
`[A-Z]`, `[aeiouy]` with the `i` flag). -/

/-- `\w` of JavaScript regexes: `[A-Za-z0-9_]`. -/
def isWordChar (c : Char) : Bool :=
  ('a' ≤ c && c ≤ 'z') || ('A' ≤ c && c ≤ 'Z') || ('0' ≤ c && c ≤ '9') || c = '_'

/-- `[a-zA-Z0-9]`, the class complemented in the `following` group of
the tokenizer regex (app.js:250).  Note `_` is not alphanumeric. -/
def isAlnumChar (c : Char) : Bool :=
  ('a' ≤ c && c ≤ 'z') || ('A' ≤ c && c ≤ 'Z') || ('0' ≤ c && c ≤ '9')

/-- `\d` (app.js:265). -/
def isDigitChar (c : Char) : Bool := '0' ≤ c && c ≤ '9'

/-- `[A-Z]` (app.js:268). -/
def isUpperAZ (c : Char) : Bool := 'A' ≤ c && c ≤ 'Z'

/-- `[aeiouy]` with the `i` flag of the fallback pattern (app.js:330). -/
def isVowelChar (c : Char) : Bool :=
  c = 'a' || c = 'e' || c = 'i' || c = 'o' || c = 'u' || c = 'y' ||
  c = 'A' || c = 'E' || c = 'I' || c = 'O' || c = 'U' || c = 'Y'

/-- `String.prototype.toLowerCase`, restricted to the `\w` characters a
tokenized word can contain (ASCII letters, digits, underscore), where it
is exactly the A-Z to a-z shift. -/
def lowerChar (c : Char) : Char :=
  if 'A' ≤ c && c ≤ 'Z' then Char.ofNat (c.toNat + 32) else c

/-! ## Punctuation-run normalization (app.js:244-247)

Each of the three `replace` calls rewrites, left to right, every run of
two or more identical characters of its class to a single occurrence.
`collapseRuns` realizes one such pass: a character is dropped exactly
when it is in the class and repeats the immediately preceding input
character. -/

def collapseRunsAux (p : Char → Bool) : Option Char → List Char → List Char
  | _, [] => []
  | prev, c :: rest =>
    if (match prev with | some pc => p c && c = pc | none => false) then
      collapseRunsAux p (some c) rest
    else
      c :: collapseRunsAux p (some c) rest

def collapseRuns (p : Char → Bool) (l : List Char) : List Char :=
  collapseRunsAux p none l

/-- Class of the first `replace` (app.js:245): `[,;!?]`. -/
def punctClass1 (c : Char) : Bool := c = ',' || c = ';' || c = '!' || c = '?'

/-- Class of the second `replace` (app.js:246): `[—-]`. -/
def punctClass2 (c : Char) : Bool := c = '—' || c = '-'

/-- Class of the third `replace` (app.js:247): single and double quote. -/
def punctClass3 (c : Char) : Bool := c = '\'' || c = '"'

/-- `cleanedText` (app.js:244-247): the three run-collapsing passes in
source order. -/
def normalizePunct (l : List Char) : List Char :=
  collapseRuns punctClass3 (collapseRuns punctClass2 (collapseRuns punctClass1 l))

/-! ## Tokenization (app.js:250-259)

`wordRegex = /(\w+)([^a-zA-Z0-9]*)/g` applied with `exec` in a loop:
each match is a maximal run of word characters followed by a maximal
run of non-alphanumeric characters; characters before the first word
character of the remaining input are skipped by the engine's scan.
The recursion consumes at least the skipped or matched characters each
step, so the input length is enough fuel. -/

def tokenizeGo : Nat → List Char → List (List Char × List Char)
  | 0, _ => []
  | _, [] => []
  | fuel + 1, c :: rest =>
    if isWordChar c then
      let w := (c :: rest).takeWhile isWordChar
      let r1 := (c :: rest).dropWhile isWordChar
      let f := r1.takeWhile (fun d => !(isAlnumChar d))
      let r2 := r1.dropWhile (fun d => !(isAlnumChar d))
      (w, f) :: tokenizeGo fuel r2
    else
      tokenizeGo fuel rest

def tokenize (l : List Char) : List (List Char × List Char) :=
  tokenizeGo l.length l

/-! ## Fallback syllabification (app.js:327-333)

`pattern = /[^aeiouy]*[aeiouy]+(?:[^aeiouy]*$|[^aeiouy](?=[^aeiouy]))?/gi`
and `word.match(pattern)`.  A match takes the consonants up to the next
vowel, the maximal vowel run, then (greedy alternation) either every
remaining character when no vowel follows, or one consonant when at
least two consonants separate this vowel run from the next vowel, or
nothing.  `match` yields the successive matches; it is `null` exactly
when the word has no vowel, in which case the whole word is the single
syllable. -/

def fallbackScanGo : Nat → List Char → List (List Char)
  | 0, _ => []
  | fuel + 1, l =>
    let pre := l.takeWhile (fun c => !(isVowelChar c))
    let rest := l.dropWhile (fun c => !(isVowelChar c))
    if rest.isEmpty then []
    else
      let v := rest.takeWhile isVowelChar
      let after := rest.dropWhile isVowelChar
      let consRun := after.takeWhile (fun c => !(isVowelChar c))
      if consRun.length = after.length then
        [pre ++ v ++ after]
      else if 2 ≤ consRun.length then
        (pre ++ v ++ after.take 1) :: fallbackScanGo fuel (after.drop 1)
      else
        (pre ++ v) :: fallbackScanGo fuel after

def fallbackScan (l : List Char) : List (List Char) :=
  fallbackScanGo l.length l

/-- `SyllableParser.fallbackSyllabify` (app.js:327-333):
`matches ? matches : [word]`. -/
def SyllableParser.fallbackSyllabify (word : List Char) : List (List Char) :=
  let ms := fallbackScan word
  if ms.isEmpty then [word] else ms

/-- Inner loop of `SyllableParser.applyOriginalCase` (app.js:306-325):
for each lowercase syllable, consume up to its length of the remaining
original characters. -/
def applyCaseGo : List Char → List (List Char) → List (List Char)
  | _, [] => []
  | rem, s :: ss => rem.take s.length :: applyCaseGo (rem.drop s.length) ss

/-- `SyllableParser.applyOriginalCase` (app.js:306-325). -/
def SyllableParser.applyOriginalCase (originalWord : List Char)
    (syllables : List (List Char)) : List (List Char) :=
  applyCaseGo originalWord syllables

/-- `SyllableParser.syllabifyWord` (app.js:288-304) in the configuration
where the external Hypher dictionary is unavailable (`this.hypher` is
`null`), the only syllabification code present in this repository. -/
def SyllableParser.syllabifyWord (word : List Char) : List (List Char) :=
  let lowerWord := word.map lowerChar
  let syllables := SyllableParser.fallbackSyllabify lowerWord
  SyllableParser.applyOriginalCase word syllables

/-- Per-word classification inside `SyllableParser.parse`
(app.js:263-273): all-digit words split into digits, all-caps words of
length at least 2 split into letters, anything else is syllabified. -/
def wordSyllables (word : List Char) : List (List Char) :=
  if !word.isEmpty && word.all isDigitChar then
    word.map (fun c => [c])
  else if 2 ≤ word.length && word.all isUpperAZ then
    word.map (fun c => [c])
  else
    SyllableParser.syllabifyWord word

/-! ## The parse loop (app.js:242-286) -/

/-- The record pushed onto `wordMap` (app.js:276-282).  Indices are
JavaScript numbers; `endIndex` is `startIndex + length - 1`. -/
structure WordMapEntry where
  word : List Char
  following : List Char
  startIndex : Int
  endIndex : Int
  syllables : List (List Char)
  deriving DecidableEq

/-- The `while ((match = wordRegex.exec(cleanedText)) !== null)` loop
(app.js:255-283), with `n` the running `syllables.length`.  The
`if (!word) continue` guard (app.js:259) is kept even though the
tokenizer never produces an empty word group. -/
def parseLoop : List (List Char × List Char) → Nat → List (List Char) × List WordMapEntry
  | [], _ => ([], [])
  | (w, f) :: ts, n =>
    if w.isEmpty then parseLoop ts n
    else
      let ws := wordSyllables w
      let rest := parseLoop ts (n + ws.length)
      (ws ++ rest.1,
        { word := w, following := f, startIndex := (n : Int),
          endIndex := (n : Int) + ws.length - 1, syllables := ws } :: rest.2)

/-- `SyllableParser.parse` (app.js:242-286): normalize punctuation runs,
tokenize, and accumulate syllables and the word map. -/
def SyllableParser.parse (text : List Char) : List (List Char) × List WordMapEntry :=
  parseLoop (tokenize (normalizePunct text)) 0

/-- Document reconstruction used by the round-trip contract: each
entry's syllables concatenated, then its `following` text, in order. -/
def reconstruct (wordMap : List WordMapEntry) : List Char :=
  (wordMap.map (fun e => e.syllables.flatten ++ e.following)).flatten

example : SyllableParser.parse ('h' :: 'i' :: []) =
    ([['h', 'i']], [{ word := ['h', 'i'], following := [], startIndex := 0,
                      endIndex := 0, syllables := [['h', 'i']] }]) := by decide

example : (SyllableParser.parse "running".toList).1 =
    [['r', 'u', 'n'], ['n', 'i', 'n', 'g']] := by decide

example : (SyllableParser.parse "NASA 42".toList).1 =
    [['N'], ['A'], ['S'], ['A'], ['4'], ['2']] := by decide

example : reconstruct (SyllableParser.parse "Hello,,  world!".toList).2 =
    "Hello,  world!".toList := by decide

example : reconstruct (SyllableParser.parse "!a".toList).2 = ['a'] := by decide

/-! ## PacingEngine (app.js:340-438)

The engine holds a timer handle (`timeoutId`), two flags, and
wall-clock arithmetic over `Date.now()`.  Wall-clock reads are passed
explicitly as the `now : Int` argument of each operation that reads the
clock; having a scheduled timeout is the Boolean `timeoutId`;
notifications to the `onSyllableChange`/`onComplete` callbacks are
returned as a list of `PaceEv` values in emission order. -/

inductive PaceEv where
  | change (index : Nat) (syllable : List Char)
  | complete
  deriving DecidableEq

/-- The mutable fields of `PacingEngine` (app.js:341-352). -/
structure PacingEngine where
  syllables : List (List Char)
  currentIndex : Nat
  isPlaying : Bool
  isPaused : Bool
  speed : Nat
  timeoutId : Bool
  startTime : Int
  pausedTime : Int
  deriving DecidableEq

/-- The constructor (app.js:341-352): index 0, flags down, no timer,
clock fields 0. -/
def PacingEngine.init (syllables : List (List Char)) (speed : Nat) : PacingEngine :=
  { syllables := syllables, currentIndex := 0, isPlaying := false, isPaused := false,
    speed := speed, timeoutId := false, startTime := 0, pausedTime := 0 }

/-- `stop()` (app.js:391-399): drop both flags and cancel any pending
timeout; index and clock fields are left alone. -/
def PacingEngine.stop (e : PacingEngine) : PacingEngine :=
  { e with isPlaying := false, isPaused := false, timeoutId := false }

/-- `highlightSyllable()` (app.js:401-417): past the end, stop and
notify completion; otherwise notify the current syllable, advance, and
schedule the next tick. -/
def PacingEngine.highlightSyllable (e : PacingEngine) : PacingEngine × List PaceEv :=
  if e.syllables.length ≤ e.currentIndex then
    (e.stop, [.complete])
  else
    ({ e with currentIndex := e.currentIndex + 1, timeoutId := true },
      [.change e.currentIndex (e.syllables.getD e.currentIndex [])])

/-- `start()` (app.js:354-361).  Note the guard is `isPlaying` alone and
that `pausedTime` is read, never written, here. -/
def PacingEngine.start (e : PacingEngine) (now : Int) : PacingEngine × List PaceEv :=
  if e.isPlaying then (e, [])
  else
    PacingEngine.highlightSyllable
      { e with isPlaying := true, isPaused := false, startTime := now - e.pausedTime }

/-- `pause()` (app.js:363-373).  `isPlaying` is NOT cleared: a paused
engine keeps `isPlaying = true` alongside `isPaused = true`. -/
def PacingEngine.pause (e : PacingEngine) (now : Int) : PacingEngine :=
  if !e.isPlaying || e.isPaused then e
  else { e with isPaused := true, pausedTime := now - e.startTime, timeoutId := false }

/-- `resume()` (app.js:375-382). -/
def PacingEngine.resume (e : PacingEngine) (now : Int) : PacingEngine × List PaceEv :=
  if !e.isPaused then (e, [])
  else
    PacingEngine.highlightSyllable
      { e with isPlaying := true, isPaused := false, startTime := now - e.pausedTime }

/-- `reset()` (app.js:384-389): stop, rewind, clear the pause
accumulator, then emit the index-0 preview with
`this.syllables[0] || ''` (the empty string when the sequence is
empty). -/
def PacingEngine.reset (e : PacingEngine) : PacingEngine × List PaceEv :=
  let e1 := e.stop
  ({ e1 with currentIndex := 0, pausedTime := 0 },
    [.change 0 (e.syllables.getD 0 [])])

/-- `getElapsedTime()` (app.js:433-437). -/
def PacingEngine.getElapsedTime (e : PacingEngine) (now : Int) : Int :=
  if !e.isPlaying && e.pausedTime = 0 then 0
  else if e.isPaused then e.pausedTime
  else now - e.startTime

/-- One firing of the scheduled timeout (app.js:412-416): the handle is
spent, and the callback runs `highlightSyllable` only if `isPlaying` is
still set. -/
def PacingEngine.tick (e : PacingEngine) : PacingEngine × List PaceEv :=
  let e1 := { e with timeoutId := false }
  if e1.isPlaying then e1.highlightSyllable else (e1, [])

/-- Run the timeout loop to quiescence: fire scheduled timeouts until
none is pending, collecting the notifications in order.  Each firing
either advances `currentIndex` or clears `timeoutId`, so
`length + 2` firings always suffice as fuel. -/
def PacingEngine.drainGo : Nat → PacingEngine → List PaceEv
  | 0, _ => []
  | fuel + 1, e =>
    if e.timeoutId then
      let p := e.tick
      p.2 ++ PacingEngine.drainGo fuel p.1
    else []

def PacingEngine.drain (e : PacingEngine) : List PaceEv :=
  PacingEngine.drainGo (e.syllables.length + 2) e

/-- The complete notification sequence of a session that is started and
then left running: the events of `start()` followed by those of every
timeout firing until the timer goes quiet. -/
def PacingEngine.startTrace (e : PacingEngine) (now : Int) : List PaceEv :=
  let p := e.start now
  p.2 ++ p.1.drain

example :
    PacingEngine.startTrace (PacingEngine.init [['a'], ['b'], ['c']] 100) 0 =
      [.change 0 ['a'], .change 1 ['b'], .change 2 ['c'], .complete] := by decide

example : PacingEngine.startTrace (PacingEngine.init [] 100) 0 = [.complete] := by
  decide

/-! ## WikipediaService cache (app.js:54-94)

`localStorage` reads/writes and `JSON.parse` can throw; the source
wraps each cache operation in `try`/`catch`.  The fallible browser
primitives are modelled as `Except Unit` results supplied by a
`StorageModel`, the `try` body as an `Except` computation, and the
`catch` as the handler turning any error into the documented fallback
value. -/

structure Article where
  title : List Char
  text : List Char
  url : List Char
  deriving DecidableEq

/-- The JSON value stored under a cache key (app.js:86-89). -/
structure CacheItem where
  article : Article
  expiresAt : Int
  deriving DecidableEq

/-- `WikipediaService.isCacheValid` (app.js:59-62): `!cacheItem` and a
falsy (zero) `expiresAt` both fail the check. -/
def WikipediaService.isCacheValid (cacheItem : Option CacheItem) (now : Int) : Bool :=
  match cacheItem with
  | none => false
  | some c => if c.expiresAt = 0 then false else now < c.expiresAt

/-- Behaviour of the browser primitives during one `getCachedItem`
call: the `localStorage.getItem` result (which can throw, or return
null, or a raw string), the `JSON.parse` result for a raw string, and
the `localStorage.removeItem` result. -/
structure StorageModel where
  readResult : Except Unit (Option (List Char))
  parseResult : List Char → Except Unit CacheItem
  removeResult : Except Unit Unit

/-- The `try` body of `WikipediaService.getCachedItem` (app.js:66-76):
a falsy (`null` or empty) raw item is a miss; a parsed, valid entry is
returned; an expired entry is removed and reported as a miss. -/
def WikipediaService.getCachedItemBody (s : StorageModel) (now : Int) :
    Except Unit (Option Article) :=
  match s.readResult with
  | .error e => .error e
  | .ok none => .ok none
  | .ok (some raw) =>
    if raw.isEmpty then .ok none
    else
      match s.parseResult raw with
      | .error e => .error e
      | .ok cacheItem =>
        if WikipediaService.isCacheValid (some cacheItem) now then
          .ok (some cacheItem.article)
        else
          match s.removeResult with
          | .error e => .error e
          | .ok _ => .ok none

/-- `WikipediaService.getCachedItem` (app.js:65-81): the `catch` turns
every storage or parse error into a `null` result (a cache miss). -/
def WikipediaService.getCachedItem (s : StorageModel) (now : Int) : Option Article :=
  match WikipediaService.getCachedItemBody s now with
  | .ok v => v
  | .error _ => none

/-- `WikipediaService.setCachedItem` (app.js:84-94) over a keyed map:
on a storage error (`writeFails`, e.g. quota) the `catch` leaves the
store untouched; otherwise the entry with `expiresAt = now + expiryMs`
replaces any entry under the key. -/
def WikipediaService.setCachedItem (store : List (List Char × CacheItem))
    (writeFails : Bool) (key : List Char) (article : Article) (expiryMs now : Int) :
    List (List Char × CacheItem) :=
  if writeFails then store
  else (key, { article := article, expiresAt := now + expiryMs }) ::
    store.filter (fun kv => kv.1 ≠ key)

/-! ## Daily acquisition, cache-miss path (app.js:118-150)

After the summary fetch, `getFeaturedArticle` builds `extractArticle`
and branches on `article.extract && article.extract.length > 800`.
The outcome is summarized by what is returned, whether it was cached
synchronously, and the key (if any) under which the background
completion will cache its own result when it resolves
(app.js:135-140: the same `cacheKey`). -/

structure DailyMissOutcome where
  item : Article
  hasPendingCompletion : Bool
  immediateCacheWrite : Option (List Char × Article)
  completionCacheKey : Option (List Char)
  deriving DecidableEq

/-- The miss path of `WikipediaService.getFeaturedArticle`
(app.js:118-150), as a function of the summary record.  `extract` is
an `Option` because the feed's `extract` field may be absent, which is
falsy and takes the abbreviated branch. -/
def WikipediaService.featuredMissPath (cacheKey title : List Char)
    (extract : Option (List Char)) (url : List Char) : DailyMissOutcome :=
  let extractArticle : Article := { title := title, text := extract.getD [], url := url }
  if (match extract with | some t => 800 < t.length | none => Bool.false : Bool) then
    { item := extractArticle, hasPendingCompletion := false,
      immediateCacheWrite := some (cacheKey, extractArticle),
      completionCacheKey := none }
  else
    { item := extractArticle, hasPendingCompletion := true,
      immediateCacheWrite := none,
      completionCacheKey := some cacheKey }

/-! ## UIController: progressive-update merge (app.js:925-1039)

`updateArticleContent` is invoked when an un-cancelled background
completion resolves.  The DOM work is rendering and out of scope; what
is modelled is the guard chain, the 20 percent threshold (computed in
source as `(new - cur) / cur * 100 < 20` on JavaScript numbers, here
as the equivalent exact integer comparison), the play-state capture,
the engine replacement, and the restore logic. -/

/-- `UIController.updateArticleContent` (app.js:925-1039).  Returns the
replacement engine (or the untouched one) and the notifications the
restored engine emitted. -/
def UIController.updateArticleContent (engine : Option PacingEngine) (speed : Nat)
    (newText : List Char) (now : Int) : Option PacingEngine × List PaceEv :=
  -- app.js:929-931: keep existing content if the update has no text
  if newText.all (fun c => c = ' ' || c = '\t' || c = '\n' || c = '\r') then (engine, [])
  else
    let parsed := SyllableParser.parse newText
    let syllables := parsed.1
    -- app.js:937-939: keep existing content if parsing yields nothing
    if syllables.isEmpty then (engine, [])
    else
      -- app.js:942-951: skip when under a 20 percent relative increase.
      -- The source computes `(new - cur) / cur * 100 < 20` on JavaScript
      -- numbers; under the guard `0 < cur` that comparison decides the
      -- exact rational inequality, which over the integers is
      -- `(new - cur) * 100 < 20 * cur` (at the only boundary case, a
      -- rational value of exactly 20, the double computation also yields
      -- exactly 20 and both sides reject).
      let currentSyllableCount : Nat := match engine with | some e => e.syllables.length | none => 0
      let newSyllableCount := syllables.length
      if 0 < currentSyllableCount ∧
          ((newSyllableCount : Int) - (currentSyllableCount : Int)) * 100 <
            20 * (currentSyllableCount : Int) then (engine, [])
      else
        -- app.js:959-963: capture play state before replacing
        let wasPlaying := match engine with | some e => e.isPlaying | none => false
        let wasPaused := match engine with | some e => e.isPaused | none => false
        let currentIndex : Nat := match engine with | some e => e.currentIndex | none => 0
        let elapsedTime : Int := match engine with | some e => e.pausedTime | none => 0
        -- app.js:966-968 stop the old engine; app.js:1004-1009 fresh engine
        let fresh := PacingEngine.init syllables speed
        if wasPlaying || wasPaused then
          -- app.js:1013-1015: clamp position, restore elapsed accumulator
          let restored := { fresh with
            currentIndex := min currentIndex (syllables.length - 1),
            pausedTime := elapsedTime }
          if wasPlaying then
            -- app.js:1017-1021: restart
            let p := restored.start now
            (some p.1, p.2)
          else
            -- app.js:1023-1029: mark paused directly, no scheduling
            (some { restored with isPaused := true }, [])
        else
          (some fresh, [])

/-! ## UIController: background-completion cancellation (app.js:650-699)

`loadFeaturedArticle` suppresses stale completions through the single
shared Boolean `this.pendingPromiseCancelled`.  The state below keeps
that flag together with what is observable: which acquisition's content
is live and which completions have been applied to the display.
Acquisitions are numbered by `Nat` generations. -/

structure AcqState where
  pendingPromiseCancelled : Bool
  liveGen : Nat
  appliedCompletions : List Nat
  deriving DecidableEq

/-- The controller events relevant to cancellation, each a direct
transcription of the cited lines. -/
inductive AcqStep where
  /-- Entry of `loadFeaturedArticle` (app.js:657) or of
  `loadArticleByTitle` (app.js:746): `pendingPromiseCancelled = true`. -/
  | beginLoad
  /-- `displayArticle` succeeded and the article carries
  `_fullArticlePromise` (app.js:673, 683-685): the content of
  generation `g` is live and the flag is re-armed to `false`. -/
  | displayWithPending (g : Nat)
  /-- `displayArticle` succeeded with no pending promise (app.js:673):
  content of generation `g` is live, flag untouched. -/
  | displayNoPending (g : Nat)
  /-- Generation `g`'s background completion resolves (app.js:687-692):
  `updateArticleContent` runs unless the flag is set. -/
  | completionResolves (g : Nat)
  deriving DecidableEq

def acqStep (s : AcqState) : AcqStep → AcqState
  | .beginLoad => { s with pendingPromiseCancelled := true }
  | .displayWithPending g => { s with liveGen := g, pendingPromiseCancelled := false }
  | .displayNoPending g => { s with liveGen := g }
  | .completionResolves g =>
    if s.pendingPromiseCancelled then s
    else { s with appliedCompletions := s.appliedCompletions ++ [g] }

def acqRun (s : AcqState) (steps : List AcqStep) : AcqState :=
  steps.foldl acqStep s

def acqInit : AcqState :=
  { pendingPromiseCancelled := false, liveGen := 0, appliedCompletions := [] }

/-! ## Supporting lemmas: segmentation -/

lemma isWordChar_of_isAlnumChar {c : Char} (h : isAlnumChar c = true) :
    isWordChar c = true := by
  simp only [isAlnumChar, Bool.or_eq_true, Bool.and_eq_true] at h
  simp only [isWordChar, Bool.or_eq_true, Bool.and_eq_true]
  tauto

lemma flatten_map_singleton (l : List Char) :
    (l.map (fun c => [c])).flatten = l := by
  induction l with
  | nil => rfl
  | cons c t ih => simp [ih]

lemma applyCaseGo_length (rem : List Char) (ss : List (List Char)) :
    (applyCaseGo rem ss).length = ss.length := by
  induction ss generalizing rem with
  | nil => rfl
  | cons s t ih => simp [applyCaseGo, ih]

lemma applyCaseGo_flatten (rem : List Char) (ss : List (List Char)) :
    (applyCaseGo rem ss).flatten = rem.take ((ss.map List.length).sum) := by
  induction ss generalizing rem with
  | nil => simp [applyCaseGo]
  | cons s t ih =>
    simp only [applyCaseGo, List.flatten_cons, ih, List.map_cons, List.sum_cons]
    rw [List.take_add]

lemma fallbackScanGo_eq_nil {l : List Char} (h : l.any isVowelChar = false)
    (fuel : Nat) : fallbackScanGo fuel l = [] := by
  cases fuel with
  | zero => rfl
  | succ fuel =>
    have hd : l.dropWhile (fun c => !(isVowelChar c)) = [] := by
      rw [List.dropWhile_eq_nil_iff]
      intro x hx
      have := (List.any_eq_false.mp h) x hx
      simp [this]
    simp [fallbackScanGo, hd]

lemma fallbackScanGo_flatten :
    ∀ (fuel : Nat) (l : List Char), l.length ≤ fuel →
      l.any isVowelChar = true → (fallbackScanGo fuel l).flatten = l := by
  intro fuel
  induction fuel with
  | zero =>
    intro l hl hv
    have : l = [] := List.length_eq_zero.mp (Nat.le_zero.mp hl)
    subst this
    simp at hv
  | succ fuel ih =>
    intro l hl hv
    have hrest : l.dropWhile (fun c => !(isVowelChar c)) ≠ [] := by
      intro h0
      obtain ⟨x, hx, hvx⟩ := List.any_eq_true.mp hv
      have := (List.dropWhile_eq_nil_iff.mp h0) x hx
      simp [hvx] at this
    obtain ⟨a, t, hat⟩ : ∃ a t, l.dropWhile (fun c => !(isVowelChar c)) = a :: t := by
      cases h0 : l.dropWhile (fun c => !(isVowelChar c)) with
      | nil => exact absurd h0 hrest
      | cons a t => exact ⟨a, t, rfl⟩
    have hva : isVowelChar a = true := by
      have h2 := List.head?_dropWhile_not (fun c => !(isVowelChar c)) l
      rw [hat] at h2
      simpa using h2
    have hsplit : l.takeWhile (fun c => !(isVowelChar c)) ++ (a :: t) = l := by
      rw [← hat]
      exact List.takeWhile_append_dropWhile _ l
    have htlen : t.length + 1 ≤ l.length := by
      have := congrArg List.length hsplit
      simp only [List.length_append, List.length_cons] at this
      omega
    have htsplit : t.takeWhile isVowelChar ++ t.dropWhile isVowelChar = t :=
      List.takeWhile_append_dropWhile _ t
    have hAlen : (t.dropWhile isVowelChar).length ≤ t.length :=
      (List.dropWhile_sublist _).length_le
    -- whenever the all-consonant branch fails, the remainder still holds a vowel
    have hA_any :
        ((t.dropWhile isVowelChar).takeWhile (fun c => !(isVowelChar c))).length ≠
          (t.dropWhile isVowelChar).length →
        (t.dropWhile isVowelChar).any isVowelChar = true := by
      intro hne
      have hsuf : (t.dropWhile isVowelChar).dropWhile (fun c => !(isVowelChar c)) ≠ [] := by
        intro h0
        have := congrArg List.length
          (List.takeWhile_append_dropWhile (fun c => !(isVowelChar c)) (t.dropWhile isVowelChar))
        rw [h0] at this
        simp only [List.length_append, List.length_nil] at this
        omega
      have hv2 := List.head_dropWhile_not (fun c => !(isVowelChar c))
        (t.dropWhile isVowelChar) hsuf
      simp only [Bool.not_eq_false'] at hv2
      refine List.any_eq_true.mpr ⟨_, ?_, hv2⟩
      exact (List.dropWhile_sublist _).subset (List.head_mem hsuf)
    rw [fallbackScanGo]
    simp only [hat, List.isEmpty_cons, List.takeWhile_cons_of_pos hva,
      List.dropWhile_cons_of_pos hva, Bool.false_eq_true, if_false]
    by_cases hc1 :
        ((t.dropWhile isVowelChar).takeWhile (fun c => !(isVowelChar c))).length =
          (t.dropWhile isVowelChar).length
    · rw [if_pos hc1]
      simp only [List.flatten_cons, List.flatten_nil, List.append_nil,
        List.cons_append, List.append_assoc]
      rw [htsplit, hsplit]
    · rw [if_neg hc1]
      by_cases hc2 :
          2 ≤ ((t.dropWhile isVowelChar).takeWhile (fun c => !(isVowelChar c))).length
      · rw [if_pos hc2]
        -- the first character of the remainder is a consonant,
        -- so its vowel survives dropping one character
        obtain ⟨b, u, hbu⟩ : ∃ b u, t.dropWhile isVowelChar = b :: u := by
          cases h0 : t.dropWhile isVowelChar with
          | nil => rw [h0] at hc2; simp at hc2
          | cons b u => exact ⟨b, u, rfl⟩
        have hconsb : isVowelChar b = false := by
          by_contra hcb
          rw [hbu, List.takeWhile_cons_of_neg (by simpa using hcb)] at hc2
          simp at hc2
        have hdrop_any : ((t.dropWhile isVowelChar).drop 1).any isVowelChar = true := by
          have h1 := hA_any hc1
          rw [hbu] at h1 ⊢
          simp only [List.any_cons, Bool.or_eq_true, hconsb] at h1
          simpa using h1
        have hlen : ((t.dropWhile isVowelChar).drop 1).length ≤ fuel := by
          have := List.length_drop 1 (t.dropWhile isVowelChar)
          omega
        rw [List.flatten_cons, ih _ hlen hdrop_any]
        simp only [List.cons_append, List.append_assoc]
        rw [List.take_append_drop, htsplit, hsplit]
      · rw [if_neg hc2]
        have hlen : (t.dropWhile isVowelChar).length ≤ fuel := by omega
        rw [List.flatten_cons, ih _ hlen (hA_any hc1)]
        simp only [List.cons_append, List.append_assoc]
        rw [htsplit, hsplit]

lemma fallbackSyllabify_flatten (w : List Char) :
    (SyllableParser.fallbackSyllabify w).flatten = w := by
  unfold SyllableParser.fallbackSyllabify fallbackScan
  by_cases h : (fallbackScanGo w.length w).isEmpty
  · simp [h]
  · rw [if_neg (by simpa using h)]
    apply fallbackScanGo_flatten w.length w le_rfl
    by_contra hv
    rw [Bool.not_eq_true] at hv
    rw [fallbackScanGo_eq_nil hv] at h
    simp at h

lemma fallbackSyllabify_ne_nil (w : List Char) :
    SyllableParser.fallbackSyllabify w ≠ [] := by
  unfold SyllableParser.fallbackSyllabify
  by_cases h : (fallbackScan w).isEmpty
  · simp [h]
  · rw [if_neg (by simpa using h)]
    simpa using h

lemma syllabifyWord_flatten (w : List Char) :
    (SyllableParser.syllabifyWord w).flatten = w := by
  unfold SyllableParser.syllabifyWord SyllableParser.applyOriginalCase
  rw [applyCaseGo_flatten]
  have hsum : ((SyllableParser.fallbackSyllabify (w.map lowerChar)).map List.length).sum
      = w.length := by
    rw [← List.length_flatten, fallbackSyllabify_flatten, List.length_map]
  rw [hsum, List.take_length]

lemma wordSyllables_flatten (w : List Char) : (wordSyllables w).flatten = w := by
  unfold wordSyllables
  split_ifs with h1 h2
  · exact flatten_map_singleton w
  · exact flatten_map_singleton w
  · exact syllabifyWord_flatten w

lemma wordSyllables_ne_nil {w : List Char} (h : w ≠ []) : wordSyllables w ≠ [] := by
  unfold wordSyllables
  split_ifs with h1 h2
  · simpa using h
  · simpa using h
  · unfold SyllableParser.syllabifyWord SyllableParser.applyOriginalCase
    intro h0
    have := applyCaseGo_length w (SyllableParser.fallbackSyllabify (w.map lowerChar))
    rw [h0] at this
    exact fallbackSyllabify_ne_nil (w.map lowerChar) (List.length_eq_zero.mp this.symm)

lemma tokenizeGo_words_ne (fuel : Nat) :
    ∀ (l : List Char) (t : List Char × List Char), t ∈ tokenizeGo fuel l → t.1 ≠ [] := by
  induction fuel with
  | zero => intro l t ht; simp [tokenizeGo] at ht
  | succ fuel ih =>
    intro l t ht
    cases l with
    | nil => simp [tokenizeGo] at ht
    | cons c rest =>
      rw [tokenizeGo] at ht
      by_cases hc : isWordChar c
      · rw [if_pos hc] at ht
        simp only [List.mem_cons] at ht
        rcases ht with ht | ht
        · rw [ht, List.takeWhile_cons_of_pos hc]
          simp
        · exact ih _ _ ht
      · rw [if_neg hc] at ht
        exact ih _ _ ht

lemma tokenizeGo_flatten :
    ∀ (fuel : Nat) (l : List Char), l.length ≤ fuel →
      ((tokenizeGo fuel l).map (fun t => t.1 ++ t.2)).flatten =
        l.dropWhile (fun c => !(isWordChar c)) := by
  intro fuel
  induction fuel with
  | zero =>
    intro l hl
    have : l = [] := List.length_eq_zero.mp (Nat.le_zero.mp hl)
    subst this
    rfl
  | succ fuel ih =>
    intro l hl
    cases l with
    | nil => rfl
    | cons c rest =>
      rw [tokenizeGo]
      by_cases hc : isWordChar c = true
      · rw [if_pos hc]
        have hr1 : (c :: rest).dropWhile isWordChar = rest.dropWhile isWordChar :=
          List.dropWhile_cons_of_pos hc
        have hr1len : (rest.dropWhile isWordChar).length ≤ rest.length :=
          (List.dropWhile_sublist _).length_le
        have hr2len :
            ((rest.dropWhile isWordChar).dropWhile (fun d => !(isAlnumChar d))).length ≤
              rest.length :=
          le_trans (List.dropWhile_sublist _).length_le hr1len
        have hfuel :
            ((rest.dropWhile isWordChar).dropWhile (fun d => !(isAlnumChar d))).length ≤
              fuel := by
          simp only [List.length_cons] at hl
          omega
        -- after the `following` run the next character is alphanumeric,
        -- hence a word character, so the next scan skips nothing
        have hr2fix :
            ((rest.dropWhile isWordChar).dropWhile
                (fun d => !(isAlnumChar d))).dropWhile (fun d => !(isWordChar d)) =
              (rest.dropWhile isWordChar).dropWhile (fun d => !(isAlnumChar d)) := by
          cases h0 : (rest.dropWhile isWordChar).dropWhile (fun d => !(isAlnumChar d)) with
          | nil => rfl
          | cons d u =>
            have h2 := List.head?_dropWhile_not (fun d => !(isAlnumChar d))
              (rest.dropWhile isWordChar)
            rw [h0] at h2
            simp only [List.head?_cons] at h2
            have hal : isAlnumChar d = true := by simpa using h2
            have hw : isWordChar d = true := isWordChar_of_isAlnumChar hal
            exact List.dropWhile_cons_of_neg (by simp [hw])
        simp only [List.map_cons, List.flatten_cons, hr1]
        rw [ih _ hfuel, hr2fix]
        rw [List.dropWhile_cons_of_neg (by simp [hc])]
        rw [List.append_assoc, List.takeWhile_append_dropWhile]
        rw [List.takeWhile_cons_of_pos hc, List.cons_append,
          List.takeWhile_append_dropWhile]
      · rw [if_neg hc]
        have hfuel : rest.length ≤ fuel := by
          simp only [List.length_cons] at hl
          omega
        rw [ih _ hfuel, List.dropWhile_cons_of_pos (by simp [Bool.not_eq_true] at hc; simp [hc])]

lemma parseLoop_reconstruct (ts : List (List Char × List Char))
    (hw : ∀ t ∈ ts, t.1 ≠ []) (n : Nat) :
    reconstruct (parseLoop ts n).2 = ((ts.map (fun t => t.1 ++ t.2)).flatten) := by
  induction ts generalizing n with
  | nil => rfl
  | cons t ts ih =>
    obtain ⟨w, f⟩ := t
    have hwne : w ≠ [] := hw (w, f) (List.mem_cons_self _ _)
    rw [parseLoop, if_neg (by simpa using hwne)]
    simp only [reconstruct, List.map_cons, List.flatten_cons]
    have ihr := ih (fun t ht => hw t (List.mem_cons_of_mem _ ht)) (n + (wordSyllables w).length)
    simp only [reconstruct] at ihr
    rw [ihr, wordSyllables_flatten, List.append_assoc]

/-- C1 (counterexample): on the input `"!a"` — whose
punctuation-run-normalized form is `"!a"` itself — the reconstruction
drops the leading `'!'`, because the tokenizer regex
`/(\w+)([^a-zA-Z0-9]*)/g` skips characters before the first word
character.  So the round-trip contract fails as stated. -/
theorem parse_roundTrip_cex :
    normalizePunct ['!', 'a'] = ['!', 'a'] ∧
    reconstruct (SyllableParser.parse ['!', 'a']).2 = ['a'] ∧
    reconstruct (SyllableParser.parse ['!', 'a']).2 ≠ normalizePunct ['!', 'a'] := by
  decide

/-- C1 (amended): for every input string, re-joining each WordMapEntry's
syllables followed by its `following` text yields exactly the
punctuation-run-normalized form of the input with its maximal leading
run of non-word characters (characters outside `[A-Za-z0-9_]`) removed;
in particular the contract as originally stated holds whenever the
normalized input begins with a word character. -/
theorem parse_roundTrip (text : List Char) :
    reconstruct (SyllableParser.parse text).2 =
      (normalizePunct text).dropWhile (fun c => !(isWordChar c)) := by
  unfold SyllableParser.parse tokenize
  rw [parseLoop_reconstruct _ (fun t ht => tokenizeGo_words_ne _ _ t ht) 0]
  exact tokenizeGo_flatten _ _ le_rfl

/-! ## Word-map index invariants -/

/-- Entries starting at position `n` whose indices are internally
consistent and contiguous. -/
def chainFrom : Int → List WordMapEntry → Prop
  | _, [] => True
  | n, e :: es =>
    e.startIndex = n ∧ e.endIndex = n + e.syllables.length - 1 ∧
      chainFrom (e.endIndex + 1) es

lemma parseLoop_chain (ts : List (List Char × List Char)) :
    ∀ n : Nat, chainFrom (n : Int) (parseLoop ts n).2 := by
  induction ts with
  | nil => intro n; trivial
  | cons t ts ih =>
    intro n
    obtain ⟨w, f⟩ := t
    rw [parseLoop]
    by_cases hw : w.isEmpty
    · rw [if_pos hw]; exact ih n
    · rw [if_neg hw]
      refine ⟨rfl, rfl, ?_⟩
      have hcast : ((n : Int) + (wordSyllables w).length - 1) + 1 =
          ((n + (wordSyllables w).length : Nat) : Int) := by push_cast; ring
      show chainFrom (((n : Int) + (wordSyllables w).length - 1) + 1) _
      rw [hcast]
      exact ih (n + (wordSyllables w).length)

lemma parseLoop_syll_flatten (ts : List (List Char × List Char)) :
    ∀ n : Nat, ((parseLoop ts n).2.map WordMapEntry.syllables).flatten =
      (parseLoop ts n).1 := by
  induction ts with
  | nil => intro n; rfl
  | cons t ts ih =>
    intro n
    obtain ⟨w, f⟩ := t
    rw [parseLoop]
    by_cases hw : w.isEmpty
    · rw [if_pos hw]; exact ih n
    · rw [if_neg hw]
      simp only [List.map_cons, List.flatten_cons]
      rw [ih (n + (wordSyllables w).length)]

lemma chainFrom_entry_len :
    ∀ (wm : List WordMapEntry) (n : Int), chainFrom n wm →
      ∀ i (h : i < wm.length),
        (wm.get ⟨i, h⟩).endIndex - (wm.get ⟨i, h⟩).startIndex + 1 =
          ((wm.get ⟨i, h⟩).syllables.length : Int) := by
  intro wm
  induction wm with
  | nil => intro n _ i h; simp at h
  | cons e es ih =>
    intro n hch i h
    cases i with
    | zero =>
      obtain ⟨h1, h2, _⟩ := hch
      simp only [List.get]
      rw [h1, h2]
      omega
    | succ i =>
      exact ih (e.endIndex + 1) hch.2.2 i (by simpa using h)

lemma chainFrom_adjacent :
    ∀ (wm : List WordMapEntry) (n : Int), chainFrom n wm →
      ∀ i (h : i + 1 < wm.length),
        (wm.get ⟨i + 1, h⟩).startIndex =
          (wm.get ⟨i, Nat.lt_of_succ_lt h⟩).endIndex + 1 := by
  intro wm
  induction wm with
  | nil => intro n _ i h; simp at h
  | cons e es ih =>
    intro n hch i h
    cases i with
    | zero =>
      cases es with
      | nil => simp at h
      | cons f t =>
        obtain ⟨_, _, hf, _, _⟩ := hch
        simpa [List.get] using hf
    | succ i =>
      exact ih (e.endIndex + 1) hch.2.2 i (by simpa using h)

lemma chainFrom_getLast :
    ∀ (wm : List WordMapEntry) (n : Int), chainFrom n wm → ∀ h : wm ≠ [],
      (wm.getLast h).endIndex =
        n + ((((wm.map (fun e => e.syllables.length)).sum : Nat) : Int)) - 1 := by
  intro wm
  induction wm with
  | nil => intro n _ h; exact absurd rfl h
  | cons e es ih =>
    intro n hch h
    cases es with
    | nil =>
      obtain ⟨_, h2, _⟩ := hch
      simp only [List.getLast_singleton, List.map_cons, List.map_nil, List.sum_cons,
        List.sum_nil]
      rw [h2]
      push_cast
      ring
    | cons f t =>
      obtain ⟨_, h2, hrest⟩ := hch
      rw [List.getLast_cons (by simp)]
      rw [ih (e.endIndex + 1) hrest (by simp)]
      rw [h2]
      simp only [List.map_cons, List.sum_cons]
      push_cast
      ring

/-- C8: for every input string, each word-map entry spans exactly its
syllables (`endIndex - startIndex + 1 = length syllables`), consecutive
entries are contiguous, the final entry ends at the last syllable
index, and the in-order concatenation of the entries' syllables is the
full syllable sequence. -/
theorem parse_wordMap_invariants (text : List Char) :
    (∀ i (h : i < (SyllableParser.parse text).2.length),
      ((SyllableParser.parse text).2.get ⟨i, h⟩).endIndex -
          ((SyllableParser.parse text).2.get ⟨i, h⟩).startIndex + 1 =
        (((SyllableParser.parse text).2.get ⟨i, h⟩).syllables.length : Int)) ∧
    (∀ i (h : i + 1 < (SyllableParser.parse text).2.length),
      ((SyllableParser.parse text).2.get ⟨i + 1, h⟩).startIndex =
        ((SyllableParser.parse text).2.get ⟨i, Nat.lt_of_succ_lt h⟩).endIndex + 1) ∧
    (∀ h : (SyllableParser.parse text).2 ≠ [],
      ((SyllableParser.parse text).2.getLast h).endIndex =
        ((SyllableParser.parse text).1.length : Int) - 1) ∧
    ((SyllableParser.parse text).2.map WordMapEntry.syllables).flatten =
      (SyllableParser.parse text).1 := by
  have hch : chainFrom (0 : Int) (SyllableParser.parse text).2 := by
    have := parseLoop_chain (tokenize (normalizePunct text)) 0
    simpa [SyllableParser.parse] using this
  have hflat : ((SyllableParser.parse text).2.map WordMapEntry.syllables).flatten =
      (SyllableParser.parse text).1 := by
    have := parseLoop_syll_flatten (tokenize (normalizePunct text)) 0
    simpa [SyllableParser.parse] using this
  refine ⟨chainFrom_entry_len _ 0 hch, chainFrom_adjacent _ 0 hch, ?_, hflat⟩
  intro h
  rw [chainFrom_getLast _ 0 hch h]
  have hsum : ((SyllableParser.parse text).2.map (fun e => e.syllables.length)).sum =
      (SyllableParser.parse text).1.length := by
    rw [← hflat, List.length_flatten, List.map_map]
    rfl
  rw [hsum]
  ring

/-- C8 (witness): the invariants instantiated on the two-word input
`"hi you"`. -/
theorem parse_wordMap_invariants_witness :
    (((SyllableParser.parse ['h', 'i', ' ', 'y', 'o', 'u']).2.get
          ⟨0, by decide⟩).endIndex -
        ((SyllableParser.parse ['h', 'i', ' ', 'y', 'o', 'u']).2.get
          ⟨0, by decide⟩).startIndex + 1 =
      (((SyllableParser.parse ['h', 'i', ' ', 'y', 'o', 'u']).2.get
          ⟨0, by decide⟩).syllables.length : Int)) ∧
    ((SyllableParser.parse ['h', 'i', ' ', 'y', 'o', 'u']).2.get
        ⟨1, by decide⟩).startIndex =
      ((SyllableParser.parse ['h', 'i', ' ', 'y', 'o', 'u']).2.get
        ⟨0, by decide⟩).endIndex + 1 ∧
    ((SyllableParser.parse ['h', 'i', ' ', 'y', 'o', 'u']).2.getLast (by decide)).endIndex =
      ((SyllableParser.parse ['h', 'i', ' ', 'y', 'o', 'u']).1.length : Int) - 1 ∧
    ((SyllableParser.parse ['h', 'i', ' ', 'y', 'o', 'u']).2.map
        WordMapEntry.syllables).flatten =
      (SyllableParser.parse ['h', 'i', ' ', 'y', 'o', 'u']).1 := by
  have h := parse_wordMap_invariants ['h', 'i', ' ', 'y', 'o', 'u']
  exact ⟨h.1 0 (by decide), h.2.1 0 (by decide), h.2.2.1 (by decide), h.2.2.2⟩

/-! ## Supporting lemmas: playback -/

lemma drainGo_no_timeout (fuel : Nat) (e : PacingEngine) (h : e.timeoutId = false) :
    PacingEngine.drainGo fuel e = [] := by
  cases fuel with
  | zero => rfl
  | succ fuel => rw [PacingEngine.drainGo, if_neg (by simp [h])]

lemma drainGo_spec :
    ∀ (fuel : Nat) (e : PacingEngine), e.isPlaying = true → e.timeoutId = true →
      e.currentIndex ≤ e.syllables.length →
      e.syllables.length + 1 - e.currentIndex ≤ fuel →
      PacingEngine.drainGo fuel e =
        ((List.range' e.currentIndex (e.syllables.length - e.currentIndex)).map
          (fun k => PaceEv.change k (e.syllables.getD k []))) ++ [PaceEv.complete] := by
  intro fuel
  induction fuel with
  | zero => intro e _ _ h3 h4; omega
  | succ fuel ih =>
    intro e h1 h2 h3 h4
    rw [PacingEngine.drainGo, if_pos h2]
    by_cases hlt : e.currentIndex < e.syllables.length
    · have htick : e.tick =
          ({ e with currentIndex := e.currentIndex + 1, timeoutId := true },
            [PaceEv.change e.currentIndex (e.syllables.getD e.currentIndex [])]) := by
        rw [PacingEngine.tick]
        simp only [h1, if_pos]
        rw [PacingEngine.highlightSyllable, if_neg (by simpa using Nat.not_le.mpr hlt)]
      rw [htick]
      show [PaceEv.change e.currentIndex (e.syllables.getD e.currentIndex [])] ++
          PacingEngine.drainGo fuel
            { e with currentIndex := e.currentIndex + 1, timeoutId := true } = _
      rw [ih { e with currentIndex := e.currentIndex + 1, timeoutId := true } h1 rfl
        (by simpa using hlt)
        (by change e.syllables.length + 1 - (e.currentIndex + 1) ≤ fuel; omega)]
      have hk : e.syllables.length - e.currentIndex =
          (e.syllables.length - (e.currentIndex + 1)) + 1 := by omega
      rw [hk, List.range'_succ]
      simp
    · have htick : e.tick =
          ({ e with isPlaying := false, isPaused := false, timeoutId := false },
            [PaceEv.complete]) := by
        rw [PacingEngine.tick]
        simp only [h1, if_pos]
        rw [PacingEngine.highlightSyllable, if_pos (by simpa using Nat.not_lt.mp hlt)]
        rfl
      rw [htick]
      show [PaceEv.complete] ++
          PacingEngine.drainGo fuel
            { e with isPlaying := false, isPaused := false, timeoutId := false } = _
      rw [drainGo_no_timeout fuel _ rfl]
      have hk : e.syllables.length - e.currentIndex = 0 := by omega
      simp [hk]

/-- C5: a freshly constructed session over any syllable sequence, once
started and left running, emits exactly one change notification per
syllable, at indices 0, 1, ..., n-1 in increasing order, followed by
exactly one completion notification and nothing afterwards. -/
theorem playback_trace (l : List (List Char)) (speed : Nat) (now : Int) :
    PacingEngine.startTrace (PacingEngine.init l speed) now =
      ((List.range l.length).map (fun k => PaceEv.change k (l.getD k []))) ++
        [PaceEv.complete] := by
  rw [PacingEngine.startTrace, PacingEngine.start, if_neg (by simp [PacingEngine.init])]
  rw [PacingEngine.highlightSyllable]
  cases l with
  | nil =>
    rw [if_pos (by simp [PacingEngine.init])]
    rw [PacingEngine.drain, drainGo_no_timeout _ _ rfl]
    rfl
  | cons a t =>
    rw [if_neg (by simp [PacingEngine.init])]
    rw [PacingEngine.drain]
    rw [drainGo_spec _ _ rfl rfl (by simp [PacingEngine.init])
      (by simp [PacingEngine.init])]
    rw [List.range_eq_range']
    have hk : (a :: t).length = ((a :: t).length - 1) + 1 := by simp
    rw [hk, List.range'_succ]
    simp [PacingEngine.init]

/-- C10: `reset()` is total on every session, including one over an
empty syllable sequence: it emits the index-0 preview notification
(with the empty string as syllable text when the sequence is empty)
and leaves `currentIndex = 0` and `pausedAccumulatedMs = 0`. -/
theorem reset_total_and_preview (e : PacingEngine) :
    (e.reset.1.currentIndex = 0 ∧ e.reset.1.pausedTime = 0) ∧
    e.reset.2 = [PaceEv.change 0 (e.syllables.getD 0 [])] ∧
    (e.syllables = [] → e.reset.2 = [PaceEv.change 0 []]) := by
  refine ⟨⟨rfl, rfl⟩, rfl, ?_⟩
  intro h
  simp [PacingEngine.reset, h]

/-- C10 (witness): `reset()` on a session over the empty sequence. -/
theorem reset_total_and_preview_witness :
    ((PacingEngine.init [] 500).reset.1.currentIndex = 0 ∧
      (PacingEngine.init [] 500).reset.1.pausedTime = 0) ∧
    (PacingEngine.init [] 500).reset.2 = [PaceEv.change 0 []] :=
  ⟨(reset_total_and_preview (PacingEngine.init [] 500)).1,
    (reset_total_and_preview (PacingEngine.init [] 500)).2.2 rfl⟩

/-- C4 (counterexample): a session paused by `pause()` keeps
`isPlaying = true`, so `start()` on it is a no-op — the state is
returned unchanged and nothing is scheduled or emitted — even though it
is Paused with a truthy `pausedAccumulatedMs`.  This refutes the claim
that `start()` is a no-op only when Playing and that from Paused it
transitions to Playing. -/
theorem start_paused_noop_cex :
    (((PacingEngine.init [['a'], ['b']] 1000).start 0).1.pause 250).isPaused = true ∧
    (((PacingEngine.init [['a'], ['b']] 1000).start 0).1.pause 250).pausedTime = 250 ∧
    ((((PacingEngine.init [['a'], ['b']] 1000).start 0).1.pause 250).start 2250) =
      ((((PacingEngine.init [['a'], ['b']] 1000).start 0).1.pause 250), []) := by
  decide

/-- C4 (amended): `start()` is a no-op whenever `isPlaying` is set,
which includes every session paused via `pause()` (since `pause()`
leaves `isPlaying = true`).  On a session with `isPlaying` clear and a
position inside the sequence — in particular a Paused session
transplanted by a content merge, the only Paused state with
`isPlaying = false` — `start()` preserves `pausedAccumulatedMs`, sets
`startWallClock = now - pausedAccumulatedMs`, transitions to Playing,
and schedules the first reveal (emitting it). -/
theorem start_amended (e : PacingEngine) (now : Int) :
    (e.isPlaying = true → e.start now = (e, [])) ∧
    (e.isPlaying = false → e.currentIndex < e.syllables.length →
      (e.start now).1.pausedTime = e.pausedTime ∧
      (e.start now).1.startTime = now - e.pausedTime ∧
      (e.start now).1.isPlaying = true ∧
      (e.start now).1.isPaused = false ∧
      (e.start now).1.timeoutId = true ∧
      (e.start now).2 =
        [PaceEv.change e.currentIndex (e.syllables.getD e.currentIndex [])]) := by
  constructor
  · intro h
    rw [PacingEngine.start, if_pos h]
  · intro h hlt
    rw [PacingEngine.start, if_neg (by simp [h])]
    rw [PacingEngine.highlightSyllable, if_neg (by simpa using Nat.not_le.mpr hlt)]
    exact ⟨rfl, rfl, rfl, rfl, rfl, rfl⟩

/-- C4 (witness): the amended behaviour on a transplant-style Paused
session (`isPlaying = false`, `isPaused = true`, 250ms accumulated). -/
theorem start_amended_witness :
    (({ syllables := [['a'], ['b']], currentIndex := 0, isPlaying := false,
        isPaused := true, speed := 1000, timeoutId := false, startTime := 0,
        pausedTime := 250 : PacingEngine }.start 2250).1.pausedTime = 250 ∧
    ({ syllables := [['a'], ['b']], currentIndex := 0, isPlaying := false,
        isPaused := true, speed := 1000, timeoutId := false, startTime := 0,
        pausedTime := 250 : PacingEngine }.start 2250).1.startTime = 2000 ∧
    ({ syllables := [['a'], ['b']], currentIndex := 0, isPlaying := false,
        isPaused := true, speed := 1000, timeoutId := false, startTime := 0,
        pausedTime := 250 : PacingEngine }.start 2250).1.isPlaying = true ∧
    ({ syllables := [['a'], ['b']], currentIndex := 0, isPlaying := false,
        isPaused := true, speed := 1000, timeoutId := false, startTime := 0,
        pausedTime := 250 : PacingEngine }.start 2250).1.isPaused = false ∧
    ({ syllables := [['a'], ['b']], currentIndex := 0, isPlaying := false,
        isPaused := true, speed := 1000, timeoutId := false, startTime := 0,
        pausedTime := 250 : PacingEngine }.start 2250).1.timeoutId = true ∧
    ({ syllables := [['a'], ['b']], currentIndex := 0, isPlaying := false,
        isPaused := true, speed := 1000, timeoutId := false, startTime := 0,
        pausedTime := 250 : PacingEngine }.start 2250).2 =
      [PaceEv.change 0 ['a']]) := by
  have h := (start_amended
    { syllables := [['a'], ['b']], currentIndex := 0, isPlaying := false,
      isPaused := true, speed := 1000, timeoutId := false, startTime := 0,
      pausedTime := 250 : PacingEngine } 2250).2 rfl (by decide)
  refine ⟨h.1, ?_, h.2.2.1, h.2.2.2.1, h.2.2.2.2.1, h.2.2.2.2.2⟩
  rw [h.2.1]
  decide

/-- C6: pausing a playing session freezes
`pausedAccumulatedMs = now - startWallClock`, and `resume()` recomputes
`startWallClock = now - pausedAccumulatedMs`; therefore
`getElapsedTime()` immediately after a resume reads the elapsed time
accumulated before the pause, regardless of how long the pause gap
lasted. -/
theorem pause_resume_elapsed (l : List (List Char)) (speed : Nat) (t0 t1 t2 : Int)
    (h : l ≠ []) :
    ((((PacingEngine.init l speed).start t0).1.pause t1).resume t2).1.getElapsedTime t2 =
      t1 - t0 := by
  have hpos : 0 < l.length := List.length_pos.mpr h
  have h1 : (PacingEngine.init l speed).start t0 =
      ({ syllables := l, currentIndex := 1, isPlaying := true, isPaused := false,
          speed := speed, timeoutId := true, startTime := t0 - 0, pausedTime := 0 },
        [PaceEv.change 0 (l.getD 0 [])]) := by
    rw [PacingEngine.start, if_neg (by simp [PacingEngine.init])]
    rw [PacingEngine.highlightSyllable, if_neg (by simp only [PacingEngine.init]; omega)]
    rfl
  rw [h1]
  have h2 : ({ syllables := l, currentIndex := 1, isPlaying := true,
                 isPaused := false, speed := speed, timeoutId := true,
                 startTime := t0 - 0, pausedTime := 0 } : PacingEngine).pause t1 =
      { syllables := l, currentIndex := 1, isPlaying := true, isPaused := true,
        speed := speed, timeoutId := false, startTime := t0 - 0,
        pausedTime := t1 - (t0 - 0) } := by
    rw [PacingEngine.pause, if_neg (by simp)]
  rw [h2]
  rw [PacingEngine.resume, if_neg (by simp)]
  rw [PacingEngine.highlightSyllable]
  by_cases hl1 : l.length ≤ 1
  · rw [if_pos (by simpa using hl1)]
    show PacingEngine.getElapsedTime
      { syllables := l, currentIndex := 1, isPlaying := false, isPaused := false,
        speed := speed, timeoutId := false, startTime := t2 - (t1 - (t0 - 0)),
        pausedTime := t1 - (t0 - 0) } t2 = t1 - t0
    rw [PacingEngine.getElapsedTime]
    by_cases hz : t1 - t0 = 0
    · rw [if_pos (by simp [hz])]
      omega
    · rw [if_neg (by simp [hz])]
      rw [if_neg (by simp)]
      show t2 - (t2 - (t1 - (t0 - 0))) = t1 - t0
      omega
  · rw [if_neg (by simpa using hl1)]
    show PacingEngine.getElapsedTime
      { syllables := l, currentIndex := 2, isPlaying := true, isPaused := false,
        speed := speed, timeoutId := true, startTime := t2 - (t1 - (t0 - 0)),
        pausedTime := t1 - (t0 - 0) } t2 = t1 - t0
    rw [PacingEngine.getElapsedTime]
    rw [if_neg (by simp)]
    rw [if_neg (by simp)]
    show t2 - (t2 - (t1 - (t0 - 0))) = t1 - t0
    omega

/-- C6 (witness): start at 0, pause at 250, resume at 2250 — the
elapsed time right after resume is 250, not 2250. -/
theorem pause_resume_elapsed_witness :
    ((((PacingEngine.init [['a'], ['b']] 100).start 0).1.pause 250).resume
        2250).1.getElapsedTime 2250 = 250 := by
  have h := pause_resume_elapsed [['a'], ['b']] 100 0 250 2250 (by decide)
  simpa using h

/-! ## Cache and acquisition claims -/

/-- C9: every cache read whose storage read or JSON parse fails yields
`null` (a miss), an expired-entry removal failure also yields a miss,
and a failing cache write leaves the store untouched; the `catch`
blocks in `getCachedItem`/`setCachedItem` keep every storage error
local, so none reaches the acquisition caller. -/
theorem cache_errors_swallowed (s : StorageModel) (now : Int)
    (store : List (List Char × CacheItem)) (key : List Char) (article : Article)
    (expiryMs : Int) :
    (s.readResult = .error () → WikipediaService.getCachedItem s now = none) ∧
    (∀ raw, s.readResult = .ok (some raw) → s.parseResult raw = .error () →
      WikipediaService.getCachedItem s now = none) ∧
    (∀ raw cacheItem, s.readResult = .ok (some raw) → s.parseResult raw = .ok cacheItem →
      WikipediaService.isCacheValid (some cacheItem) now = false →
      s.removeResult = .error () →
      WikipediaService.getCachedItem s now = none) ∧
    (WikipediaService.setCachedItem store true key article expiryMs now = store) := by
  refine ⟨?_, ?_, ?_, rfl⟩
  · intro h
    rw [WikipediaService.getCachedItem, WikipediaService.getCachedItemBody]
    rw [h]
  · intro raw hread hparse
    rw [WikipediaService.getCachedItem, WikipediaService.getCachedItemBody]
    rw [hread]
    by_cases hraw : raw.isEmpty
    · simp [hraw]
    · simp [hraw, hparse]
  · intro raw cacheItem hread hparse hvalid hremove
    rw [WikipediaService.getCachedItem, WikipediaService.getCachedItemBody]
    rw [hread]
    by_cases hraw : raw.isEmpty
    · simp [hraw]
    · simp [hraw, hparse, hvalid, hremove]

/-- C9 (witness): a read whose storage access throws is a miss; a read
whose stored value does not parse is a miss; a failing write is a
no-op. -/
theorem cache_errors_swallowed_witness :
    (WikipediaService.getCachedItem
        { readResult := .error (), parseResult := fun _ => .error (),
          removeResult := .ok () } 0 = none) ∧
    (WikipediaService.getCachedItem
        { readResult := .ok (some ['x']), parseResult := fun _ => .error (),
          removeResult := .ok () } 0 = none) ∧
    (WikipediaService.setCachedItem [] true ['k']
        { title := ['t'], text := ['b'], url := ['u'] } 86400000 0 = []) := by
  refine ⟨?_, ?_, ?_⟩
  · exact (cache_errors_swallowed
      { readResult := .error (), parseResult := fun _ => .error (),
        removeResult := .ok () } 0 [] ['k']
      { title := ['t'], text := ['b'], url := ['u'] } 86400000).1 rfl
  · exact (cache_errors_swallowed
      { readResult := .ok (some ['x']), parseResult := fun _ => .error (),
        removeResult := .ok () } 0 [] ['k']
      { title := ['t'], text := ['b'], url := ['u'] } 86400000).2.1 ['x'] rfl rfl
  · exact (cache_errors_swallowed
      { readResult := .error (), parseResult := fun _ => .error (),
        removeResult := .ok () } 0 [] ['k']
      { title := ['t'], text := ['b'], url := ['u'] } 86400000).2.2.2

/-- C7: on a daily cache miss, a summary whose inline text exceeds 800
characters yields an item that is cached immediately and carries no
background completion; one at or under 800 characters yields the
abbreviated item at once (it is the synchronous return value,
independent of the background operation), not cached yet, with a
pending completion that will cache its result under the same key. -/
theorem featured_threshold (cacheKey title url extract : List Char) :
    ((WikipediaService.featuredMissPath cacheKey title (some extract) url).item =
      { title := title, text := extract, url := url }) ∧
    (800 < extract.length →
      (WikipediaService.featuredMissPath cacheKey title (some extract) url).hasPendingCompletion
          = false ∧
      (WikipediaService.featuredMissPath cacheKey title (some extract) url).immediateCacheWrite
          = some (cacheKey, { title := title, text := extract, url := url }) ∧
      (WikipediaService.featuredMissPath cacheKey title (some extract) url).completionCacheKey
          = none) ∧
    (extract.length ≤ 800 →
      (WikipediaService.featuredMissPath cacheKey title (some extract) url).hasPendingCompletion
          = true ∧
      (WikipediaService.featuredMissPath cacheKey title (some extract) url).immediateCacheWrite
          = none ∧
      (WikipediaService.featuredMissPath cacheKey title (some extract) url).completionCacheKey
          = some cacheKey) := by
  refine ⟨?_, ?_, ?_⟩
  · rw [WikipediaService.featuredMissPath]
    split_ifs <;> rfl
  · intro h
    rw [WikipediaService.featuredMissPath, if_pos (by simpa using h)]
    exact ⟨rfl, rfl, rfl⟩
  · intro h
    rw [WikipediaService.featuredMissPath, if_neg (by simpa using Nat.not_lt.mpr h)]
    exact ⟨rfl, rfl, rfl⟩

/-- C7 (witness): an 801-character extract is cached at once with no
background fetch; a 799-character extract returns the abbreviated item
with a pending completion keyed like the original request. -/
theorem featured_threshold_witness :
    ((WikipediaService.featuredMissPath ['k'] ['t']
        (some (List.replicate 801 'x')) ['u']).hasPendingCompletion = false ∧
      (WikipediaService.featuredMissPath ['k'] ['t']
        (some (List.replicate 801 'x')) ['u']).immediateCacheWrite =
          some (['k'], { title := ['t'], text := List.replicate 801 'x', url := ['u'] }) ∧
      (WikipediaService.featuredMissPath ['k'] ['t']
        (some (List.replicate 801 'x')) ['u']).completionCacheKey = none) ∧
    ((WikipediaService.featuredMissPath ['k'] ['t']
        (some (List.replicate 799 'x')) ['u']).hasPendingCompletion = true ∧
      (WikipediaService.featuredMissPath ['k'] ['t']
        (some (List.replicate 799 'x')) ['u']).immediateCacheWrite = none ∧
      (WikipediaService.featuredMissPath ['k'] ['t']
        (some (List.replicate 799 'x')) ['u']).completionCacheKey = some ['k']) := by
  constructor
  · exact (featured_threshold ['k'] ['t'] ['u'] (List.replicate 801 'x')).2.1
      (by rw [List.length_replicate]; norm_num)
  · exact (featured_threshold ['k'] ['t'] ['u'] (List.replicate 799 'x')).2.2
      (by rw [List.length_replicate]; norm_num)

/-- C2 (code evaluation at the failing interleaving): two daily
acquisitions both take the abbreviated path; the second begins before
the first acquisition's background completion resolves, displays its
own content (generation 2) and re-arms the shared
`pendingPromiseCancelled` flag to `false`.  When generation 1's
completion then resolves, the flag check passes and its result IS
applied to the live session — the state ends with `liveGen = 2` but
`appliedCompletions = [1]` — contradicting the claim that a superseded
completion is discarded as a no-op for the display. -/
theorem stale_completion_applied :
    acqRun acqInit
      [AcqStep.beginLoad, AcqStep.displayWithPending 1, AcqStep.beginLoad,
        AcqStep.displayWithPending 2, AcqStep.completionResolves 1] =
      { pendingPromiseCancelled := false, liveGen := 2, appliedCompletions := [1] } := by
  decide

/-- C3 (code evaluation at the failing input): a session paused by
`pause()` (so `isPlaying = true` and `isPaused = true`, position 1,
250ms accumulated, 4 syllables) receives a completion that parses to 5
syllables — a 25 percent increase, over the threshold.  Because
`pause()` leaves `isPlaying` set, the merge takes the `wasPlaying`
branch and calls `start()` on the replacement engine: the result is
Playing with a scheduled reveal (and the change notification emitted),
not Paused-without-scheduling as the claim requires.  The clamp of the
captured index and the restore of `pausedAccumulatedMs` do happen. -/
theorem paused_session_restarted_by_merge :
    ((((PacingEngine.init [['a'], ['b'], ['c'], ['d']] 1000).start 0).1.pause
        250).isPlaying = true) ∧
    ((((PacingEngine.init [['a'], ['b'], ['c'], ['d']] 1000).start 0).1.pause
        250).isPaused = true) ∧
    UIController.updateArticleContent
        (some ((((PacingEngine.init [['a'], ['b'], ['c'], ['d']] 1000).start 0).1.pause
          250))) 1000 "a e i o u".toList 1000 =
      (some { syllables := [['a'], ['e'], ['i'], ['o'], ['u']], currentIndex := 2,
              isPlaying := true, isPaused := false, speed := 1000, timeoutId := true,
              startTime := 750, pausedTime := 250 },
        [PaceEv.change 1 ['e']]) := by
  decide
